import Mathlib

/-!
Verification of the dependency-provisioning / invocation / output-decoding
pipeline of the `google-api-linter-vscode` extension.

The TypeScript sources are shallowly embedded: JS strings are modelled as
`String` (or `List Char` where character-level scanning matters), JS numbers
occurring as JSON payload coordinates and timestamps as `Int`, fallible
steps as `Option`/sum types, and I/O (filesystem existence, network fetches)
as explicit environment records and effect traces.
-/

/- ===================== JSON values and parser =====================

`JSON.parse` is a host primitive in the source; it is modelled here by an
executable fuel-based parser for the JSON fragment the linter emits
(null, booleans, integer numbers, strings with the common single-character
escapes, arrays, objects).  Fractional/exponent numbers and `\uXXXX` escapes
are outside the model: inputs using them count as parse failures, which only
narrows the set of payloads the `valid payload` theorems quantify over. -/

/-- A parsed JSON value (for array/object payloads produced by the linter). -/
inductive Json where
  | null
  | bool (b : Bool)
  | num (n : Int)
  | str (s : String)
  | arr (elems : List Json)
  | obj (members : List (String × Json))
deriving Repr, Inhabited

/-- The whitespace characters removed by both JSON and `String.prototype.trim`
on the inputs of interest. -/
def isJsonWs (c : Char) : Bool :=
  c == ' ' || c == '\t' || c == '\n' || c == '\r'

/-- Drop leading JSON whitespace. -/
def skipWs (l : List Char) : List Char := l.dropWhile isJsonWs

/-- Parse the remainder of a JSON string literal (the opening quote already
consumed), handling the single-character escapes. Returns the decoded
characters and the rest of the input. -/
def parseStringChars : List Char → Option (List Char × List Char)
  | [] => none
  | '"' :: rest => some ([], rest)
  | '\\' :: c :: rest =>
    match (match c with
      | '"' => some '"'
      | '\\' => some '\\'
      | '/' => some '/'
      | 'n' => some '\n'
      | 't' => some '\t'
      | 'r' => some '\r'
      | _ => none) with
    | none => none
    | some esc =>
      match parseStringChars rest with
      | none => none
      | some (cs, rem) => some (esc :: cs, rem)
  | c :: rest =>
    match parseStringChars rest with
    | none => none
    | some (cs, rem) => some (c :: cs, rem)

/-- Accumulate a nonempty run of decimal digits into a natural number. -/
def parseDigits (l : List Char) : Option (Nat × List Char) :=
  let ds := l.takeWhile Char.isDigit
  if ds.isEmpty then none
  else some (ds.foldl (fun a c => a * 10 + (c.toNat - 48)) 0, l.dropWhile Char.isDigit)

mutual

/-- Fuel-based JSON value parser: returns the value and the unconsumed rest. -/
def parseValue : Nat → List Char → Option (Json × List Char)
  | 0, _ => none
  | fuel + 1, l =>
    match skipWs l with
    | 'n' :: 'u' :: 'l' :: 'l' :: rest => some (.null, rest)
    | 't' :: 'r' :: 'u' :: 'e' :: rest => some (.bool true, rest)
    | 'f' :: 'a' :: 'l' :: 's' :: 'e' :: rest => some (.bool false, rest)
    | '"' :: rest =>
      match parseStringChars rest with
      | some (cs, rem) => some (.str (String.mk cs), rem)
      | none => none
    | '[' :: rest =>
      match skipWs rest with
      | ']' :: rem => some (.arr [], rem)
      | l2 =>
        match parseElems fuel l2 with
        | some (vs, rem) => some (.arr vs, rem)
        | none => none
    | '{' :: rest =>
      match skipWs rest with
      | '}' :: rem => some (.obj [], rem)
      | l2 =>
        match parseMembers fuel l2 with
        | some (ms, rem) => some (.obj ms, rem)
        | none => none
    | '-' :: rest =>
      match parseDigits rest with
      | some (n, rem) => some (.num (-(n : Int)), rem)
      | none => none
    | c :: rest =>
      if c.isDigit then
        match parseDigits (c :: rest) with
        | some (n, rem) => some (.num (n : Int), rem)
        | none => none
      else none
    | [] => none

/-- Parse one or more comma-separated array elements up to the closing `]`. -/
def parseElems : Nat → List Char → Option (List Json × List Char)
  | 0, _ => none
  | fuel + 1, l =>
    match parseValue fuel l with
    | none => none
    | some (v, rest) =>
      match skipWs rest with
      | ',' :: rest2 =>
        match parseElems fuel rest2 with
        | some (vs, rem) => some (v :: vs, rem)
        | none => none
      | ']' :: rest2 => some ([v], rest2)
      | _ => none

/-- Parse one or more comma-separated object members up to the closing brace. -/
def parseMembers : Nat → List Char → Option (List (String × Json) × List Char)
  | 0, _ => none
  | fuel + 1, l =>
    match skipWs l with
    | '"' :: rest =>
      match parseStringChars rest with
      | none => none
      | some (key, rest2) =>
        match skipWs rest2 with
        | ':' :: rest3 =>
          match parseValue fuel rest3 with
          | none => none
          | some (v, rest4) =>
            match skipWs rest4 with
            | ',' :: rest5 =>
              match parseMembers fuel rest5 with
              | some (ms, rem) => some ((String.mk key, v) :: ms, rem)
              | none => none
            | '}' :: rest5 => some ([(String.mk key, v)], rest5)
            | _ => none
        | _ => none
    | _ => none

end

/-- Model of `JSON.parse`: parse one value and require only whitespace after it. -/
def jsonParse (l : List Char) : Option Json :=
  match parseValue (l.length + 1) l with
  | some (j, rest) => if skipWs rest = [] then some j else none
  | none => none

/- ===================== Linter output data model =====================

Mirrors `src/types.ts` (`LinterLocation`, `LinterProblem`, `LinterOutput`)
and the `vscode.Diagnostic` value assembled by `createDiagnosticFromProblem`
in `src/utils/linterUtils.ts`. -/

/-- A 1-indexed source position as reported by the external linter
(`line_number` / `column_number` of `LinterLocation` in `src/types.ts`). -/
structure LinterPosition where
  line_number : Int
  column_number : Int
deriving Repr, DecidableEq

/-- Location information of one reported problem (`LinterLocation`). The
`path` member of the source interface is never read by the decoder and is
omitted. -/
structure LinterLocation where
  start_position : LinterPosition
  end_position : LinterPosition
deriving Repr, DecidableEq

/-- A single problem reported by the linter (`LinterProblem`). -/
structure LinterProblem where
  message : String
  location : LinterLocation
  rule_id : String
  rule_doc_uri : String
deriving Repr, DecidableEq

/-- One per-file result group (`LinterOutput`). `problems := none` models a
JSON group whose `problems` member is absent or `null` (both are falsy in
the `!result.problems` guard of `parseLinterOutput`); `file_path` is carried
but never read by the decoder. -/
structure LinterOutput where
  file_path : Option String := none
  problems : Option (List LinterProblem) := none
deriving Repr, DecidableEq

/-- Diagnostic severity (`vscode.DiagnosticSeverity` values used here). -/
inductive Severity where
  | error
  | warning
deriving Repr, DecidableEq

/-- The `vscode.Range` built for a diagnostic: 0-indexed coordinates. -/
structure DiagRange where
  startLine : Int
  startChar : Int
  endLine : Int
  endChar : Int
deriving Repr, DecidableEq

/-- The `vscode.Diagnostic` value assembled for one problem: range, message,
severity, `source`, and the `code` pair {value, target}. `vscode.Uri.parse`
is modelled as the identity on the URI string. -/
structure Diagnostic where
  range : DiagRange
  message : String
  severity : Severity
  source : String
  codeValue : String
  codeTarget : String
deriving Repr, DecidableEq

/-- `createDiagnosticFromProblem` (src/unnamed/part_007, lines 332-351):
each coordinate is converted independently by `max 0 (external - 1)`; the
severity there is `Error`. -/
def createDiagnosticFromProblem (problem : LinterProblem) : Diagnostic :=
  let startLine := max 0 (problem.location.start_position.line_number - 1)
  let startChar := max 0 (problem.location.start_position.column_number - 1)
  let endLine := max 0 (problem.location.end_position.line_number - 1)
  let endChar := max 0 (problem.location.end_position.column_number - 1)
  { range := ⟨startLine, startChar, endLine, endChar⟩
    message := problem.message
    severity := .error
    source := "google-api-linter"
    codeValue := problem.rule_id
    codeTarget := problem.rule_doc_uri }

/- ===================== JSON → typed results =====================

`JSON.parse` returns untyped data which the source reads through the
`LinterOutput[]` TypeScript annotation without validation; the decoding
functions below model the successful (well-typed) access path.  A payload on
which they fail corresponds to a run where the property accesses throw and
the surrounding `catch` swallows the error. -/

/-- Object member lookup; later duplicate keys win, as in a JS object literal. -/
def Json.getMember (j : Json) (key : String) : Option Json :=
  match j with
  | .obj ms => (ms.reverse.find? (fun m => m.1 == key)).map (·.2)
  | _ => none

/-- Read a JSON value as a string. -/
def Json.asString (j : Json) : Option String :=
  match j with
  | .str s => some s
  | _ => none

/-- Read a JSON value as an (integer) number. -/
def Json.asInt (j : Json) : Option Int :=
  match j with
  | .num n => some n
  | _ => none

/-- Decode a `{line_number, column_number}` position object. -/
def decodePosition (j : Json) : Option LinterPosition := do
  let ln ← (j.getMember "line_number").bind Json.asInt
  let col ← (j.getMember "column_number").bind Json.asInt
  some ⟨ln, col⟩

/-- Decode a `location` object with its two positions. -/
def decodeLocation (j : Json) : Option LinterLocation := do
  let sp ← (j.getMember "start_position").bind decodePosition
  let ep ← (j.getMember "end_position").bind decodePosition
  some ⟨sp, ep⟩

/-- Decode one problem entry. -/
def decodeProblem (j : Json) : Option LinterProblem := do
  let msg ← (j.getMember "message").bind Json.asString
  let loc ← (j.getMember "location").bind decodeLocation
  let rid ← (j.getMember "rule_id").bind Json.asString
  let ruri ← (j.getMember "rule_doc_uri").bind Json.asString
  some ⟨msg, loc, rid, ruri⟩

/-- Decode one per-file result group. An absent or `null` `problems` member
yields `problems := none` (skipped by the decoder loop); a present array must
decode element-wise. -/
def decodeResult (j : Json) : Option LinterOutput :=
  let fp := (j.getMember "file_path").bind Json.asString
  match j.getMember "problems" with
  | none => some { file_path := fp, problems := none }
  | some .null => some { file_path := fp, problems := none }
  | some (.arr xs) =>
    match xs.mapM decodeProblem with
    | some ps => some { file_path := fp, problems := some ps }
    | none => none
  | some _ => none

/-- Decode the top-level payload: an array of result groups. -/
def toLinterOutputs (j : Json) : Option (List LinterOutput) :=
  match j with
  | .arr xs => xs.mapM decodeResult
  | _ => none

/- ===================== Output decoder =====================

`parseLinterOutput` (src/unnamed/part_007, lines 264-325): trim the raw
stdout, locate the first `[` and the last `]`, parse only that substring,
and map every problem of every result group to a diagnostic.  Any failure
is logged and yields the empty list. -/

/-- `String.prototype.trim` on a character list. -/
def trimChars (l : List Char) : List Char :=
  ((l.dropWhile isJsonWs).reverse.dropWhile isJsonWs).reverse

/-- The substring from the first `[` through the last `]`, or `none` when
either bracket is missing or the last `]` precedes the first `[`.  This is
the `indexOf('[')` / `lastIndexOf(']')` / `substring(jsonStart, jsonEnd + 1)`
step of the source, expressed on lists: `dropWhile (· != '[')` starts at the
first `[`, and dropping the reversed suffix up to `]` cuts at the last `]`
(a global last `]` before the first `[` leaves no `]` in the suffix, which
is exactly the `jsonEnd < jsonStart` failure). -/
def extractJsonArray (l : List Char) : Option (List Char) :=
  let s1 := l.dropWhile (fun c => c != '[')
  if s1.isEmpty then none
  else
    let r := s1.reverse.dropWhile (fun c => c != ']')
    if r.isEmpty then none else some r.reverse

/-- The `results.forEach` loop: groups with an absent/empty problem list are
skipped, each problem becomes one diagnostic, in order. -/
def collectDiagnostics : List LinterOutput → List Diagnostic
  | [] => []
  | r :: rs =>
    (match r.problems with
     | none => []
     | some ps => if ps.isEmpty then [] else ps.map createDiagnosticFromProblem)
    ++ collectDiagnostics rs

/-- The decode stages of `parseLinterOutput` up to the typed result groups:
emptiness guard, trim, bracket extraction, `JSON.parse`, typed reading.
`none` is any of the failure paths on which the source returns no
diagnostics. -/
def decodeLinterResults (output : List Char) : Option (List LinterOutput) :=
  if (trimChars output).isEmpty then none
  else
    match extractJsonArray (trimChars output) with
    | none => none
    | some jsonChars =>
      match jsonParse jsonChars with
      | none => none
      | some j => toLinterOutputs j

/-- `parseLinterOutput`: total — every failure stage degrades to `[]`
(the source logs the error and falls through to `return diagnostics`). -/
def parseLinterOutput (output : List Char) : List Diagnostic :=
  match decodeLinterResults output with
  | none => []
  | some results => collectDiagnostics results

/- ===================== Decoder lemmas =====================  -/

/-- `dropWhile` over an append whose second part starts with a failing
character stops no later than that character. -/
theorem dropWhile_append_head_neg (p : Char → Bool) (l₁ : List Char) (c : Char)
    (l₂ : List Char) (hc : p c = false) :
    (l₁ ++ c :: l₂).dropWhile p = l₁.dropWhile p ++ c :: l₂ := by
  induction l₁ with
  | nil => simp [List.dropWhile, hc]
  | cons a l ih =>
    by_cases ha : p a
    · simpa [List.dropWhile, ha] using ih
    · simp [List.dropWhile, ha]

/-- Characters surviving `dropWhile` come from the original list. -/
theorem mem_of_mem_dropWhile (p : Char → Bool) (l : List Char) (x : Char)
    (h : x ∈ l.dropWhile p) : x ∈ l :=
  (List.dropWhile_sublist (l := l) (p := p)).subset h

/-- The `forEach` accumulation is the concatenation of the per-group maps. -/
theorem collectDiagnostics_eq (rs : List LinterOutput) :
    collectDiagnostics rs
      = (rs.map (fun r => (r.problems.getD []).map createDiagnosticFromProblem)).flatten := by
  induction rs with
  | nil => rfl
  | cons r rs ih =>
    cases hp : r.problems with
    | none => simpa [collectDiagnostics, hp] using ih
    | some ps =>
      by_cases he : ps.isEmpty
      · have : ps = [] := List.isEmpty_iff.mp he
        simp [collectDiagnostics, hp, he, this, ih]
      · simp [collectDiagnostics, hp, he, ih]

/-- C1: For every valid tool-output payload (one on which the decode stages
succeed), `parseLinterOutput` produces exactly one diagnostic per problem
entry in entry order, groups with an empty or missing problem list contribute
nothing, and every range coordinate is converted independently by
`max 0 (external - 1)`. -/
theorem c1_decode_one_record_per_problem (output : List Char)
    (results : List LinterOutput)
    (h : decodeLinterResults output = some results) :
    parseLinterOutput output
      = (results.map (fun r => (r.problems.getD []).map createDiagnosticFromProblem)).flatten
    ∧ (parseLinterOutput output).length
      = (results.map (fun r => (r.problems.getD []).length)).sum
    ∧ (∀ r ∈ results, (r.problems = none ∨ r.problems = some []) →
        (r.problems.getD []).map createDiagnosticFromProblem = [])
    ∧ (∀ p : LinterProblem,
        (createDiagnosticFromProblem p).range.startLine
            = max 0 (p.location.start_position.line_number - 1)
      ∧ (createDiagnosticFromProblem p).range.startChar
            = max 0 (p.location.start_position.column_number - 1)
      ∧ (createDiagnosticFromProblem p).range.endLine
            = max 0 (p.location.end_position.line_number - 1)
      ∧ (createDiagnosticFromProblem p).range.endChar
            = max 0 (p.location.end_position.column_number - 1)) := by
  have hout : parseLinterOutput output
      = (results.map (fun r => (r.problems.getD []).map createDiagnosticFromProblem)).flatten := by
    simp [parseLinterOutput, h, collectDiagnostics_eq]
  refine ⟨hout, ?_, ?_, ?_⟩
  · rw [hout, List.length_flatten]
    simp [List.map_map, Function.comp_def]
  · intro r _ hr
    rcases hr with hr | hr <;> simp [hr]
  · intro p
    exact ⟨rfl, rfl, rfl, rfl⟩

/-- A concrete linter stdout payload: one group with one problem, one group
with an empty problem list. -/
def c1Sample : List Char :=
  ("[\x7b\"problems\":[\x7b\"message\":\"m\",\"location\":\x7b\"start_position\":"
    ++ "\x7b\"line_number\":3,\"column_number\":1\x7d,\"end_position\":"
    ++ "\x7b\"line_number\":3,\"column_number\":5\x7d\x7d,\"rule_id\":\"r\","
    ++ "\"rule_doc_uri\":\"u\"\x7d]\x7d,\x7b\"problems\":[]\x7d]").toList

/-- The typed result groups `c1Sample` decodes to. -/
def c1Results : List LinterOutput :=
  [{ file_path := none
     problems := some [{ message := "m"
                         location := ⟨⟨3, 1⟩, ⟨3, 5⟩⟩
                         rule_id := "r"
                         rule_doc_uri := "u" }] },
   { file_path := none, problems := some [] }]

set_option maxRecDepth 8192 in
/-- Witness for C1 at the concrete payload `c1Sample`. -/
theorem c1_decode_one_record_per_problem_witness :
    decodeLinterResults c1Sample = some c1Results
    ∧ parseLinterOutput c1Sample
        = (c1Results.map
            (fun r => (r.problems.getD []).map createDiagnosticFromProblem)).flatten :=
  ⟨by rfl, (c1_decode_one_record_per_problem c1Sample c1Results (by rfl)).1⟩

/-- Characters of the trimmed list come from the original list. -/
theorem mem_of_mem_trimChars (l : List Char) (x : Char) (h : x ∈ trimChars l) :
    x ∈ l := by
  unfold trimChars at h
  rw [List.mem_reverse] at h
  have h2 := mem_of_mem_dropWhile _ _ _ h
  rw [List.mem_reverse] at h2
  exact mem_of_mem_dropWhile _ _ _ h2

/-- C3: on the empty string, a whitespace-only string, a string with no `[`,
a string whose bracket extraction fails, or a string whose extracted
substring fails to parse, `parseLinterOutput` yields `[]`.  It is a total
function, so no exception can reach the caller on any of these inputs. -/
theorem c3_decode_failure_yields_empty :
    parseLinterOutput [] = []
    ∧ (∀ l : List Char, (∀ c ∈ l, isJsonWs c = true) → parseLinterOutput l = [])
    ∧ (∀ l : List Char, (∀ c ∈ l, c ≠ '[') → parseLinterOutput l = [])
    ∧ (∀ l : List Char, extractJsonArray (trimChars l) = none → parseLinterOutput l = [])
    ∧ (∀ l js, extractJsonArray (trimChars l) = some js → jsonParse js = none →
        parseLinterOutput l = []) := by
  have hnone : ∀ l : List Char, extractJsonArray (trimChars l) = none →
      parseLinterOutput l = [] := by
    intro l hl
    by_cases he : (trimChars l).isEmpty <;>
      simp [parseLinterOutput, decodeLinterResults, he, hl]
  refine ⟨rfl, ?_, ?_, hnone, ?_⟩
  · intro l hl
    have : trimChars l = [] := by
      unfold trimChars
      rw [List.dropWhile_eq_nil_iff.mpr hl]
      rfl
    simp [parseLinterOutput, decodeLinterResults, this]
  · intro l hl
    apply hnone
    have : (trimChars l).dropWhile (fun c => c != '[') = [] := by
      refine List.dropWhile_eq_nil_iff.mpr ?_
      intro x hx
      exact bne_iff_ne.mpr (hl x (mem_of_mem_trimChars l x hx))
    simp [extractJsonArray, this]
  · intro l js hex hp
    by_cases he : (trimChars l).isEmpty <;>
      simp [parseLinterOutput, decodeLinterResults, he, hex, hp]

/-- Witness for C3: each hypothesis discharged at a concrete input
(whitespace-only, bracket-free, bracket pair in the wrong order, and
extractable but unparsable substrings). -/
theorem c3_decode_failure_yields_empty_witness :
    parseLinterOutput (" \n ".toList) = []
    ∧ parseLinterOutput ("exit status 1".toList) = []
    ∧ parseLinterOutput ("] oops [".toList) = []
    ∧ parseLinterOutput ("some [not, json] here".toList) = [] :=
  ⟨c3_decode_failure_yields_empty.2.1 _ (by decide),
   c3_decode_failure_yields_empty.2.2.1 _ (by decide),
   c3_decode_failure_yields_empty.2.2.2.1 _ (by rfl),
   c3_decode_failure_yields_empty.2.2.2.2 _ ("[not, json]".toList) (by rfl) (by rfl)⟩

/-- Trimming a bracketed array surrounded by noise trims only the outer ends
of the noise. -/
theorem trimChars_sandwich (noise1 inner noise2 : List Char) :
    trimChars (noise1 ++ ('[' :: inner ++ [']']) ++ noise2)
      = noise1.dropWhile isJsonWs ++ ('[' :: inner ++ [']'])
          ++ (noise2.reverse.dropWhile isJsonWs).reverse := by
  unfold trimChars
  have h1 : (noise1 ++ ('[' :: inner ++ [']']) ++ noise2).dropWhile isJsonWs
      = noise1.dropWhile isJsonWs ++ '[' :: (inner ++ [']'] ++ noise2) := by
    have := dropWhile_append_head_neg isJsonWs noise1 '['
      (inner ++ [']'] ++ noise2) (by decide)
    simpa [List.append_assoc] using this
  rw [h1]
  have h2 : (noise1.dropWhile isJsonWs ++ '[' :: (inner ++ [']'] ++ noise2)).reverse
      = noise2.reverse ++ ']' :: (inner.reverse
          ++ '[' :: (noise1.dropWhile isJsonWs).reverse) := by
    simp [List.reverse_append, List.append_assoc]
  rw [h2]
  have h3 : (noise2.reverse ++ ']' :: (inner.reverse
        ++ '[' :: (noise1.dropWhile isJsonWs).reverse)).dropWhile isJsonWs
      = noise2.reverse.dropWhile isJsonWs ++ ']' :: (inner.reverse
          ++ '[' :: (noise1.dropWhile isJsonWs).reverse) :=
    dropWhile_append_head_neg isJsonWs noise2.reverse ']' _ (by decide)
  rw [h3]
  simp [List.reverse_append, List.append_assoc]

/-- Bracket extraction on a bracketed array surrounded by bracket-free noise
recovers exactly the array. -/
theorem extract_sandwich (t1 inner t2 : List Char)
    (h1 : ∀ c ∈ t1, c ≠ '[') (h2 : ∀ c ∈ t2, c ≠ ']') :
    extractJsonArray (t1 ++ ('[' :: inner ++ [']']) ++ t2)
      = some ('[' :: inner ++ [']']) := by
  unfold extractJsonArray
  have hs1 : (t1 ++ ('[' :: inner ++ [']']) ++ t2).dropWhile (fun c => c != '[')
      = '[' :: (inner ++ [']'] ++ t2) := by
    have hstep := dropWhile_append_head_neg (fun c => c != '[') t1 '['
      (inner ++ [']'] ++ t2) (by decide)
    have hnil : t1.dropWhile (fun c => c != '[') = [] :=
      List.dropWhile_eq_nil_iff.mpr (fun x hx => bne_iff_ne.mpr (h1 x hx))
    rw [hnil] at hstep
    simpa [List.append_assoc] using hstep
  rw [hs1]
  have hr : (t2.reverse ++ ']' :: (inner.reverse ++ ['['])).dropWhile (fun c => c != ']')
      = ']' :: (inner.reverse ++ ['[']) := by
    have hstep := dropWhile_append_head_neg (fun c => c != ']') t2.reverse ']'
      (inner.reverse ++ ['[']) (by decide)
    have hnil : t2.reverse.dropWhile (fun c => c != ']') = [] :=
      List.dropWhile_eq_nil_iff.mpr
        (fun x hx => bne_iff_ne.mpr (h2 x (List.mem_reverse.mp hx)))
    rw [hnil] at hstep
    simpa using hstep
  simp [hr]

/-- C2: decoding a bracketed array surrounded by bracket-free noise gives
exactly the diagnostics of the array alone: the decoder locates the first
`[` and the last `]` of the trimmed buffer and parses only that substring. -/
theorem c2_noise_invariant_decode (noise1 inner noise2 : List Char)
    (h1 : ∀ c ∈ noise1, c ≠ '[' ∧ c ≠ ']')
    (h2 : ∀ c ∈ noise2, c ≠ '[' ∧ c ≠ ']') :
    parseLinterOutput (noise1 ++ ('[' :: inner ++ [']']) ++ noise2)
      = parseLinterOutput ('[' :: inner ++ [']']) := by
  have hL : extractJsonArray
      (trimChars (noise1 ++ ('[' :: inner ++ [']']) ++ noise2))
      = some ('[' :: inner ++ [']']) := by
    rw [trimChars_sandwich]
    exact extract_sandwich _ inner _
      (fun c hc => (h1 c (mem_of_mem_dropWhile _ _ _ hc)).1)
      (fun c hc =>
        (h2 c (List.mem_reverse.mp
          (mem_of_mem_dropWhile _ _ _ (List.mem_reverse.mp hc)))).2)
  have htrim : trimChars ('[' :: inner ++ [']']) = '[' :: inner ++ [']'] := by
    have h := trimChars_sandwich [] inner []
    simpa using h
  have hR : extractJsonArray (trimChars ('[' :: inner ++ [']']))
      = some ('[' :: inner ++ [']']) := by
    rw [htrim]
    have h := extract_sandwich [] inner [] (by simp) (by simp)
    simpa using h
  have hLne : ¬ (trimChars (noise1 ++ ('[' :: inner ++ [']']) ++ noise2)).isEmpty := by
    rw [trimChars_sandwich]
    simp
  have hRne : ¬ (trimChars ('[' :: inner ++ [']'])).isEmpty := by
    rw [htrim]
    simp
  have dL : decodeLinterResults (noise1 ++ ('[' :: inner ++ [']']) ++ noise2)
      = (match jsonParse ('[' :: inner ++ [']']) with
         | none => none
         | some j => toLinterOutputs j) := by
    unfold decodeLinterResults
    rw [if_neg hLne, hL]
  have dR : decodeLinterResults ('[' :: inner ++ [']'])
      = (match jsonParse ('[' :: inner ++ [']']) with
         | none => none
         | some j => toLinterOutputs j) := by
    unfold decodeLinterResults
    rw [if_neg hRne, hR]
  unfold parseLinterOutput
  rw [dL, dR]

/-- Witness for C2: a banner line and a trailing warning around a concrete
payload decode to the same diagnostics as the payload alone. -/
theorem c2_noise_invariant_decode_witness :
    parseLinterOutput ("warning: banner\n".toList
        ++ ('[' :: "\x7b\"problems\":null\x7d".toList ++ [']']) ++ "\ndone.".toList)
      = parseLinterOutput ('[' :: "\x7b\"problems\":null\x7d".toList ++ [']']) :=
  c2_noise_invariant_decode "warning: banner\n".toList
    "\x7b\"problems\":null\x7d".toList "\ndone.".toList (by decide) (by decide)

/- ===================== Invocation argument builder =====================

`resolveWorkspaceVariables` and `buildLinterArgs` from src/unnamed/part_007
(lines 12-103).  Filesystem existence (`fs.existsSync`), the workspace
folder list, the per-file workspace-folder lookup, the home directory and
the process working directory are inputs, collected in `VsEnv`.  The host
string primitives used by the source (`String.prototype.replace`,
`path.dirname`, `path.basename`, `path.join`, `path.resolve`) are modelled
executably below; `path.resolve`'s `.`/`..` normalisation is omitted (no
claim depends on it). -/

/-- Split a character list at every occurrence of one character. -/
def splitOnChar (c : Char) (l : List Char) : List (List Char) :=
  l.foldr (fun a acc =>
    if a == c then [] :: acc else ((a :: acc.headD []) :: acc.tail)) [[]]

/-- Interleave a separator between character-list segments. -/
def joinWithChar (c : Char) : List (List Char) → List Char
  | [] => []
  | [s] => s
  | s :: rest => s ++ c :: joinWithChar c rest

/-- Does the first list start with the second? -/
def listStartsWith : List Char → List Char → Bool
  | _, [] => true
  | [], _ :: _ => false
  | a :: s, b :: t => a == b && listStartsWith s t

/-- Non-overlapping left-to-right replacement of every occurrence of `pat`
(the behaviour of a `/g` regex replace on a literal pattern); the fuel is
the length of the subject, enough to consume it. -/
def listReplaceFuel : Nat → List Char → List Char → List Char → List Char
  | 0, s, _, _ => s
  | fuel + 1, s, pat, rep =>
    match s with
    | [] => []
    | a :: rest =>
      if !pat.isEmpty && listStartsWith s pat then
        rep ++ listReplaceFuel fuel (s.drop pat.length) pat rep
      else a :: listReplaceFuel fuel rest pat rep

/-- Replace every occurrence of `pat` in `s` by `rep`. -/
def strReplace (s pat rep : String) : String :=
  String.mk (listReplaceFuel s.toList.length s.toList pat.toList rep.toList)

/-- Does `pat` occur as a contiguous sublist of `s`? -/
def listContainsSub : List Char → List Char → Bool
  | [], pat => pat.isEmpty
  | a :: rest, pat => listStartsWith (a :: rest) pat || listContainsSub rest pat

/-- Does `pat` occur anywhere in `s`? -/
def strContainsSub (s pat : String) : Bool :=
  listContainsSub s.toList pat.toList

/-- POSIX absolute path test (`path.isAbsolute`). -/
def isAbsolutePath (p : String) : Bool := listStartsWith p.toList "/".toList

/-- `path.join(a, b)` for the simple relative segments used by the source. -/
def pathJoin (a b : String) : String := a ++ "/" ++ b

/-- `path.dirname` (POSIX): everything before the final separator. -/
def pathDirname (p : String) : String :=
  let parts := splitOnChar '/' p.toList
  if parts.length ≤ 1 then "."
  else
    match parts.dropLast with
    | [[]] => "/"
    | ps => String.mk (joinWithChar '/' ps)

/-- `path.basename` (POSIX): everything after the final separator. -/
def pathBasename (p : String) : String :=
  String.mk (((splitOnChar '/' p.toList).getLast?).getD p.toList)

/-- The editor-facing inputs of the argument builder: filesystem existence,
workspace folders, the workspace folder owning a given file, the home
directory and the process working directory. -/
structure VsEnv where
  existsSync : String → Bool
  workspaceFolders : List String
  folderOf : String → Option String
  homedir : String
  cwd : String

/-- `path.resolve` against the process working directory (normalisation of
`.`/`..` segments omitted). -/
def pathResolve (env : VsEnv) (p : String) : String :=
  if isAbsolutePath p then p else pathJoin env.cwd p

/-- Configuration options for running the linter (`LinterOptions` in
`src/types.ts`). -/
structure LinterOptions where
  configPath : String
  protoPath : List String
  disableRules : List String
  enableRules : List String
  descriptorSetIn : List String
  ignoreCommentDisables : Bool
  setExitStatus : Bool

/-- `resolveWorkspaceVariables`: substitute `${workspaceFolder}` and
`${workspaceRoot}` by the file's workspace folder (falling back to the first
folder), then resolve; with no workspace open the string is only resolved. -/
def resolveWorkspaceVariables (env : VsEnv) (pathStr filePath : String) : String :=
  let resolved :=
    match env.workspaceFolders with
    | [] => pathStr
    | w :: _ =>
      let workspacePath := (env.folderOf filePath).getD w
      strReplace (strReplace pathStr "${workspaceFolder}" workspacePath)
        "${workspaceRoot}" workspacePath
  pathResolve env resolved

/-- `buildLinterArgs`: the successive `args.push` calls of the source,
written as one concatenation in push order.  Returns (args, workingDir,
fileName). -/
def buildLinterArgs (env : VsEnv) (filePath : String) (options : LinterOptions) :
    List String × String × String :=
  let configArgs :=
    if options.configPath ≠ "" then
      let resolvedConfigPath := resolveWorkspaceVariables env options.configPath filePath
      if env.existsSync resolvedConfigPath then ["--config", resolvedConfigPath] else []
    else []
  let absolutePath := if isAbsolutePath filePath then filePath else pathResolve env filePath
  let workingDir := pathDirname absolutePath
  let fileName := pathBasename absolutePath
  let workspaceArgs :=
    match env.workspaceFolders with
    | [] => []
    | w :: _ =>
      let workspaceRoot := (env.folderOf filePath).getD w
      (if workspaceRoot ≠ workingDir && env.existsSync workspaceRoot then
        ["--proto-path", workspaceRoot]
      else [])
      ++ (let workspaceGapiDir := pathJoin (pathJoin workspaceRoot ".gapi") "googleapis"
          if env.existsSync workspaceGapiDir then ["--proto-path", workspaceGapiDir] else [])
  let homeGapiDir := pathJoin (pathJoin env.homedir ".gapi") "googleapis"
  let homeArgs := if env.existsSync homeGapiDir then ["--proto-path", homeGapiDir] else []
  let protoPathArgs := options.protoPath.flatMap (fun protoPath =>
    let resolvedPath := resolveWorkspaceVariables env protoPath filePath
    if env.existsSync resolvedPath then ["--proto-path", resolvedPath] else [])
  let disableArgs := options.disableRules.flatMap (fun rule => ["--disable-rule", rule])
  let enableArgs := options.enableRules.flatMap (fun rule => ["--enable-rule", rule])
  let descriptorArgs :=
    options.descriptorSetIn.flatMap (fun d => ["--descriptor-set-in", d])
  let flagArgs :=
    (if options.ignoreCommentDisables then ["--ignore-comment-disables"] else [])
      ++ (if options.setExitStatus then ["--set-exit-status"] else [])
  (configArgs ++ ["--proto-path", workingDir] ++ workspaceArgs ++ homeArgs
     ++ protoPathArgs ++ disableArgs ++ enableArgs ++ descriptorArgs ++ flagArgs
     ++ ["--output-format", "json", fileName],
   workingDir, fileName)

/-- The `--config` part of the argument vector. -/
def configContribution (env : VsEnv) (filePath : String) (options : LinterOptions) :
    List String :=
  if options.configPath ≠ "" then
    let r := resolveWorkspaceVariables env options.configPath filePath
    if env.existsSync r then ["--config", r] else []
  else []

/-- The absolute path of the target file as the builder computes it. -/
def builderAbsolutePath (env : VsEnv) (filePath : String) : String :=
  if isAbsolutePath filePath then filePath else pathResolve env filePath

/-- The auto-discovered import paths (workspace root and the two `.gapi`
corpus directories). -/
def autoImportContribution (env : VsEnv) (filePath : String) : List String :=
  let workingDir := pathDirname (builderAbsolutePath env filePath)
  (match env.workspaceFolders with
   | [] => []
   | w :: _ =>
     let workspaceRoot := (env.folderOf filePath).getD w
     (if workspaceRoot ≠ workingDir && env.existsSync workspaceRoot then
       ["--proto-path", workspaceRoot]
     else [])
     ++ (let workspaceGapiDir := pathJoin (pathJoin workspaceRoot ".gapi") "googleapis"
         if env.existsSync workspaceGapiDir then ["--proto-path", workspaceGapiDir] else []))
  ++ (let homeGapiDir := pathJoin (pathJoin env.homedir ".gapi") "googleapis"
      if env.existsSync homeGapiDir then ["--proto-path", homeGapiDir] else [])

/-- Contribution of one caller-supplied import path: substituted, then kept
only when the resolved path exists. -/
def protoPathContribution (env : VsEnv) (filePath : String) (p : String) : List String :=
  let resolvedPath := resolveWorkspaceVariables env p filePath
  if env.existsSync resolvedPath then ["--proto-path", resolvedPath] else []

/-- The rule/descriptor/boolean-flag part of the argument vector. -/
def ruleFlagContribution (options : LinterOptions) : List String :=
  options.disableRules.flatMap (fun rule => ["--disable-rule", rule])
    ++ options.enableRules.flatMap (fun rule => ["--enable-rule", rule])
    ++ options.descriptorSetIn.flatMap (fun d => ["--descriptor-set-in", d])
    ++ (if options.ignoreCommentDisables then ["--ignore-comment-disables"] else [])
    ++ (if options.setExitStatus then ["--set-exit-status"] else [])

/-- The argument vector splits into the push-order segments of the source. -/
theorem buildLinterArgs_decomp (env : VsEnv) (filePath : String)
    (options : LinterOptions) :
    (buildLinterArgs env filePath options).1
      = configContribution env filePath options
        ++ ["--proto-path", pathDirname (builderAbsolutePath env filePath)]
        ++ autoImportContribution env filePath
        ++ options.protoPath.flatMap (protoPathContribution env filePath)
        ++ ruleFlagContribution options
        ++ ["--output-format", "json", pathBasename (builderAbsolutePath env filePath)] := by
  cases h : env.workspaceFolders <;>
    simp [buildLinterArgs, configContribution, builderAbsolutePath,
      autoImportContribution, protoPathContribution, ruleFlagContribution, h,
      List.append_assoc] <;>
    rfl

/-- Anything is an infix of an enclosing concatenation. -/
theorem infix_middle {α : Type} (A B C : List α) : B <:+: A ++ B ++ C := ⟨A, C, rfl⟩

/-- An element's image is an infix of the `flatMap`. -/
theorem infix_flatMap {α β : Type} (f : α → List β) (l : List α) (a : α)
    (ha : a ∈ l) : f a <:+: l.flatMap f := by
  induction l with
  | nil => cases ha
  | cons b l ih =>
    rcases List.mem_cons.mp ha with rfl | ha2
    · exact ⟨[], l.flatMap f, by simp⟩
    · rcases ih ha2 with ⟨s, t, hst⟩
      exact ⟨f b ++ s, t, by simp [← hst, List.append_assoc]⟩

/-- C5: the argument vector contains `--proto-path` followed by the target
file's containing directory; every caller-supplied import path is first
substituted against the workspace root and contributes `--proto-path` with
its resolved value exactly when the resolved path exists; a nonexistent
entry — in particular one whose resolution still contains an unresolved
`$\x7b...\x7d` placeholder, which the filesystem reports as nonexistent —
contributes nothing and is never passed through literally. -/
theorem c5_import_paths_substituted_and_filtered (env : VsEnv) (filePath : String)
    (options : LinterOptions)
    (hph : ∀ r : String, strContainsSub r "$\x7b" = true → env.existsSync r = false) :
    (["--proto-path", pathDirname (builderAbsolutePath env filePath)]
        <:+: (buildLinterArgs env filePath options).1)
    ∧ (∃ pre post, (buildLinterArgs env filePath options).1
        = pre ++ options.protoPath.flatMap (protoPathContribution env filePath) ++ post)
    ∧ (∀ p ∈ options.protoPath,
        env.existsSync (resolveWorkspaceVariables env p filePath) = true →
          ["--proto-path", resolveWorkspaceVariables env p filePath]
            <:+: (buildLinterArgs env filePath options).1)
    ∧ (∀ p ∈ options.protoPath,
        env.existsSync (resolveWorkspaceVariables env p filePath) = false →
          protoPathContribution env filePath p = [])
    ∧ (∀ p ∈ options.protoPath,
        strContainsSub (resolveWorkspaceVariables env p filePath) "$\x7b" = true →
          protoPathContribution env filePath p = []) := by
  have hdec := buildLinterArgs_decomp env filePath options
  have hdrop : ∀ p ∈ options.protoPath,
      env.existsSync (resolveWorkspaceVariables env p filePath) = false →
        protoPathContribution env filePath p = [] := by
    intro p _ hex
    simp [protoPathContribution, hex]
  refine ⟨?_, ?_, ?_, hdrop, ?_⟩
  · rw [hdec]
    exact ⟨configContribution env filePath options,
      autoImportContribution env filePath
        ++ options.protoPath.flatMap (protoPathContribution env filePath)
        ++ ruleFlagContribution options
        ++ ["--output-format", "json", pathBasename (builderAbsolutePath env filePath)],
      by simp [List.append_assoc]⟩
  · exact ⟨configContribution env filePath options
        ++ ["--proto-path", pathDirname (builderAbsolutePath env filePath)]
        ++ autoImportContribution env filePath,
      ruleFlagContribution options
        ++ ["--output-format", "json", pathBasename (builderAbsolutePath env filePath)],
      by rw [hdec]; simp [List.append_assoc]⟩
  · intro p hp hex
    have hcontrib : protoPathContribution env filePath p
        = ["--proto-path", resolveWorkspaceVariables env p filePath] := by
      simp [protoPathContribution, hex]
    have h1 : ["--proto-path", resolveWorkspaceVariables env p filePath]
        <:+: options.protoPath.flatMap (protoPathContribution env filePath) := by
      rw [← hcontrib]
      exact infix_flatMap _ _ p hp
    rcases h1 with ⟨s, t, hst⟩
    rw [hdec]
    exact ⟨configContribution env filePath options
        ++ ["--proto-path", pathDirname (builderAbsolutePath env filePath)]
        ++ autoImportContribution env filePath ++ s,
      t ++ ruleFlagContribution options
        ++ ["--output-format", "json", pathBasename (builderAbsolutePath env filePath)],
      by rw [← hst]; simp [List.append_assoc]⟩
  · intro p hp hsub
    exact hdrop p hp (hph _ hsub)

/-- The concrete editor environment of the C5 witness: `/ws` is the only
workspace folder and `/ws/p/vendor` the only existing path. -/
def c5Env : VsEnv :=
  { existsSync := fun p => p == "/ws/p/vendor"
    workspaceFolders := ["/ws"]
    folderOf := fun _ => some "/ws"
    homedir := "/home/u"
    cwd := "/ws" }

/-- The concrete options of the C5 witness: one existing import path, one
missing one, one with an unresolvable placeholder. -/
def c5Options : LinterOptions :=
  { configPath := ""
    protoPath := ["/ws/p/vendor", "/ws/missing", "${unresolvedVar}/x"]
    disableRules := []
    enableRules := []
    descriptorSetIn := []
    ignoreCommentDisables := false
    setExitStatus := false }

/-- Witness for C5 at a file `/ws/p/a.proto`: `--proto-path /ws/p` and
`--proto-path /ws/p/vendor` are present, while `/ws/missing` and the
unresolved-placeholder entry contribute nothing. -/
theorem c5_import_paths_substituted_and_filtered_witness :
    (["--proto-path", "/ws/p"] <:+: (buildLinterArgs c5Env "/ws/p/a.proto" c5Options).1)
    ∧ (["--proto-path", "/ws/p/vendor"]
        <:+: (buildLinterArgs c5Env "/ws/p/a.proto" c5Options).1)
    ∧ protoPathContribution c5Env "/ws/p/a.proto" "/ws/missing" = []
    ∧ protoPathContribution c5Env "/ws/p/a.proto" "${unresolvedVar}/x" = [] := by
  have hph : ∀ r : String, strContainsSub r "$\x7b" = true →
      c5Env.existsSync r = false := by
    intro r hr
    by_contra hcon
    have hr2 : r = "/ws/p/vendor" := by
      have := eq_of_beq (a := r) (b := "/ws/p/vendor") (by
        revert hcon
        cases h : c5Env.existsSync r
        · intro hc; exact absurd rfl hc
        · intro _; exact h)
      exact this
    rw [hr2] at hr
    exact absurd hr (by decide)
  have h := c5_import_paths_substituted_and_filtered c5Env "/ws/p/a.proto" c5Options hph
  refine ⟨?_, ?_, ?_, ?_⟩
  · have h1 := h.1
    have : pathDirname (builderAbsolutePath c5Env "/ws/p/a.proto") = "/ws/p" := by decide
    rwa [this] at h1
  · have h3 := h.2.2.1 "/ws/p/vendor" (by decide) (by decide)
    have : resolveWorkspaceVariables c5Env "/ws/p/vendor" "/ws/p/a.proto"
        = "/ws/p/vendor" := by decide
    rwa [this] at h3
  · exact h.2.2.2.1 "/ws/missing" (by decide) (by decide)
  · exact h.2.2.2.2 "${unresolvedVar}/x" (by decide) (by decide)

/- ===================== Process runner =====================

The `close` handler of `runLinter` (`src/linterProvider.ts`, lines 137-157):
exit codes other than 0 and 1 reject the promise with an error naming the
code; 0 and 1 resolve with the decoded stdout (a decode throw resolves with
`[]`, which the total `parseLinterOutput` model absorbs). -/

/-- Outcome of the close handler: decoded diagnostics or a rejection. -/
inductive RunResult where
  | ok (diags : List Diagnostic)
  | err (message : String)
deriving Repr, DecidableEq

/-- The rejection message built for an abnormal exit code. -/
def exitCodeMessage (code : Int) : String :=
  "api-linter exited with code " ++ toString code

/-- The `close` handler: classify the exit code, then decode stdout. -/
def handleClose (code : Int) (stdout : List Char) : RunResult :=
  if code ≠ 0 ∧ code ≠ 1 then .err (exitCodeMessage code)
  else .ok (parseLinterOutput stdout)

/-- C4: exit codes 0 and 1 both resolve with the decoded stdout and raise no
error; every other exit code rejects with an error naming that code — in
particular exit code 2. -/
theorem c4_exit_codes_zero_and_one_succeed (code : Int) (stdout : List Char) :
    (code = 0 ∨ code = 1 → handleClose code stdout = .ok (parseLinterOutput stdout))
    ∧ (code ≠ 0 → code ≠ 1 → handleClose code stdout = .err (exitCodeMessage code))
    ∧ handleClose 2 stdout = .err (exitCodeMessage 2) := by
  refine ⟨?_, ?_, by simp [handleClose, exitCodeMessage]⟩
  · rintro (rfl | rfl) <;> simp [handleClose]
  · intro h0 h1
    simp [handleClose, h0, h1]

/-- Witness for C4: exit code 1 with a well-formed payload resolves with its
diagnostics; exit code 2 rejects naming the code. -/
theorem c4_exit_codes_zero_and_one_succeed_witness :
    handleClose 1 c1Sample = .ok (parseLinterOutput c1Sample)
    ∧ handleClose 2 c1Sample = .err "api-linter exited with code 2" :=
  ⟨(c4_exit_codes_zero_and_one_succeed 1 c1Sample).1 (Or.inr rfl),
   by
    have h := (c4_exit_codes_zero_and_one_succeed 2 c1Sample).2.1
      (by decide) (by decide)
    simpa [exitCodeMessage] using h⟩

/- ===================== Dependency provisioning =====================

`ApiLinterDownloader` (`src/download/apiLinterDownloader.ts`) and
`GoogleapisDownloader` (`src/download/googleapisDownloader.ts`).  Reading
the metadata sidecar (`readFile` + `JSON.parse` inside `try`) is modelled as
an `Option`: `none` is a missing or unparsable file (the `catch` path).
Timestamps (`Date.now()`, `lastChecked`) are `Int` milliseconds.  Network
activity is recorded as an explicit effect trace. -/

/-- `BinaryMetadata` from `src/types.ts`. -/
structure BinaryMetadata where
  version : String
  lastChecked : Int
  path : String
deriving Repr, DecidableEq

/-- 24 hours in milliseconds (`oneDayInMs` in `shouldCheckForUpdate`). -/
def oneDayInMs : Int := 24 * 60 * 60 * 1000

/-- 30 days in milliseconds (`thirtyDays` in `shouldDownloadGoogleapis`). -/
def thirtyDaysInMs : Int := 30 * 24 * 60 * 60 * 1000

/-- `shouldCheckForUpdate`: due when strictly more than one day has passed
since `lastChecked`; a missing/unparsable metadata file (`none`) is due
immediately (the `catch` returns `true`). -/
def shouldCheckForUpdate (metadata : Option BinaryMetadata) (now : Int) : Bool :=
  match metadata with
  | none => true
  | some data => now - data.lastChecked > oneDayInMs

/-- `shouldDownloadGoogleapis`: absent corpus directory downloads
immediately; otherwise due when strictly more than thirty days have passed;
missing/unparsable metadata is due immediately. -/
def shouldDownloadGoogleapis (dirPresent : Bool)
    (metadata : Option BinaryMetadata) (now : Int) : Bool :=
  if !dirPresent then true
  else
    match metadata with
    | none => true
    | some data => now - data.lastChecked > thirtyDaysInMs

/-- One network call of the provisioning pipeline. -/
inductive NetEffect where
  | fetchJson (url : String)
  | downloadFile (url : String)
deriving Repr, DecidableEq

/-- The release-metadata endpoint (`GITHUB_API`). -/
def GITHUB_API : String :=
  "https://api.github.com/repos/googleapis/api-linter/releases/latest"

/-- The provisioning environment: filesystem state, metadata read result,
clock, the release endpoint's answers, and the user's update choice. -/
structure ProvisionEnv where
  homeDir : String
  binaryPresent : Bool
  metadata : Option BinaryMetadata
  now : Int
  latestTag : String
  assetUrl : Option String
  userAcceptsUpdate : Bool

/-- The managed install path `~/.gapi/api-linter`. -/
def managedBinaryPath (env : ProvisionEnv) : String :=
  env.homeDir ++ "/.gapi/api-linter"

/-- `getCurrentVersion`: the stored version, or `"unknown"` when the
metadata file is missing or unparsable. -/
def getCurrentVersion (metadata : Option BinaryMetadata) : String :=
  match metadata with
  | some data => data.version
  | none => "unknown"

/-- Network effects of `downloadBinary`: fetch the release JSON, then
download the matched asset (no download when no asset matches — the
function throws after the fetch). -/
def downloadBinaryEffects (env : ProvisionEnv) : List NetEffect :=
  .fetchJson GITHUB_API ::
    (match env.assetUrl with
     | some url => [.downloadFile url]
     | none => [])

/-- Network effects of `checkAndUpdate`: fetch the release JSON; when the
latest tag differs from the installed version and the user accepts, run
`downloadBinary`. -/
def checkAndUpdateEffects (env : ProvisionEnv) : List NetEffect :=
  .fetchJson GITHUB_API ::
    (if env.latestTag ≠ getCurrentVersion env.metadata && env.userAcceptsUpdate then
      downloadBinaryEffects env
    else [])

/-- `getCustomBinaryPath`: the configured value (`none` = unset) is returned
only when truthy (nonempty) and different from the literal `"api-linter"`. -/
def getCustomBinaryPath (configuredPath : Option String) : Option String :=
  match configuredPath with
  | some p => if p ≠ "" ∧ p ≠ "api-linter" then some p else none
  | none => none

/-- `ensureBinary`: returned path together with the network-effect trace.
A configured custom path short-circuits; otherwise the present binary is
conditionally update-checked, an absent one downloaded. -/
def ensureBinary (configuredPath : Option String) (env : ProvisionEnv) :
    String × List NetEffect :=
  match getCustomBinaryPath configuredPath with
  | some customBinaryPath => (customBinaryPath, [])
  | none =>
    if env.binaryPresent then
      if shouldCheckForUpdate env.metadata env.now then
        (managedBinaryPath env, checkAndUpdateEffects env)
      else (managedBinaryPath env, [])
    else (managedBinaryPath env, downloadBinaryEffects env)

/-- C6: with a custom executable path configured (nonempty and different
from the literal default), `ensureBinary` returns that path unchanged and
performs zero network calls. -/
theorem c6_custom_path_short_circuits (env : ProvisionEnv) (p : String)
    (hne : p ≠ "") (hnd : p ≠ "api-linter") :
    ensureBinary (some p) env = (p, []) := by
  simp [ensureBinary, getCustomBinaryPath, hne, hnd]

/-- A provisioning environment in which the managed pipeline would have to
download (binary absent), so the short circuit is observable. -/
def c6Env : ProvisionEnv :=
  { homeDir := "/home/u"
    binaryPresent := false
    metadata := none
    now := 0
    latestTag := "v1.70.0"
    assetUrl := some "https://github.com/googleapis/api-linter/releases/dl.tar.gz"
    userAcceptsUpdate := true }

/-- Witness for C6 at a concrete custom path and environment; without the
custom path the same environment downloads (nonempty effect trace). -/
theorem c6_custom_path_short_circuits_witness :
    ensureBinary (some "/opt/tools/my-linter") c6Env = ("/opt/tools/my-linter", [])
    ∧ (ensureBinary none c6Env).2 ≠ [] :=
  ⟨c6_custom_path_short_circuits c6Env "/opt/tools/my-linter"
      (by decide) (by decide),
   by decide⟩

/-- C7: the freshness checks are due exactly when strictly more time than
the interval has elapsed (one day for the executable, thirty days for the
corpus); `now - (interval + 1)` is due, `now - (interval - 1)` is not; a
missing or unparsable metadata file is due immediately. -/
theorem c7_freshness_strictly_greater (now : Int) (m : BinaryMetadata) :
    (shouldCheckForUpdate (some m) now = true ↔ now - m.lastChecked > oneDayInMs)
    ∧ shouldCheckForUpdate none now = true
    ∧ (∀ v p, shouldCheckForUpdate (some ⟨v, now - (oneDayInMs + 1), p⟩) now = true)
    ∧ (∀ v p, shouldCheckForUpdate (some ⟨v, now - (oneDayInMs - 1), p⟩) now = false)
    ∧ (shouldDownloadGoogleapis true (some m) now = true
        ↔ now - m.lastChecked > thirtyDaysInMs)
    ∧ shouldDownloadGoogleapis true none now = true := by
  refine ⟨by simp [shouldCheckForUpdate], rfl, ?_, ?_, by simp [shouldDownloadGoogleapis], rfl⟩
  · intro v p
    simp [shouldCheckForUpdate]
  · intro v p
    simp [shouldCheckForUpdate]

/-- C10: a configured custom path equal to the literal `"api-linter"` is
treated as unset: `ensureBinary` behaves exactly as with no configured path,
returning the managed install path (which is never the literal itself). -/
theorem c10_default_literal_is_not_custom (env : ProvisionEnv) :
    getCustomBinaryPath (some "api-linter") = none
    ∧ ensureBinary (some "api-linter") env = ensureBinary none env
    ∧ (ensureBinary (some "api-linter") env).1 = managedBinaryPath env
    ∧ managedBinaryPath env ≠ "api-linter"
    ∧ getCustomBinaryPath (some "") = none := by
  have hnone : getCustomBinaryPath (some "api-linter") = none := by
    simp [getCustomBinaryPath]
  have heq : ensureBinary (some "api-linter") env = ensureBinary none env := by
    simp [ensureBinary, hnone, getCustomBinaryPath]
  have hfst : (ensureBinary (some "api-linter") env).1 = managedBinaryPath env := by
    rw [heq]
    simp [ensureBinary, getCustomBinaryPath]
    by_cases hb : env.binaryPresent <;>
      by_cases hu : shouldCheckForUpdate env.metadata env.now <;>
      simp [hb, hu]
  refine ⟨hnone, heq, hfst, ?_, by simp [getCustomBinaryPath]⟩
  intro hcon
  have hlen := congrArg String.length hcon
  have h17 : ("/.gapi/api-linter" : String).length = 17 := by decide
  have h10 : ("api-linter" : String).length = 10 := by decide
  rw [managedBinaryPath, String.length_append, h17, h10] at hlen
  omega

/- ===================== Metadata sidecar writes =====================

`updateMetadata` (`src/download/apiLinterDownloader.ts`, lines 177-184) and
`updateGoogleapisMetadata` (`src/download/googleapisDownloader.ts`, lines
160-168) as filesystem write plans: the sequence of write/rename operations
each performs. -/

/-- One filesystem mutation performed while persisting metadata. -/
inductive FsOp where
  | write (path content : String)
  | rename (src dst : String)
deriving Repr, DecidableEq

/-- The binary metadata sidecar path `~/.gapi/metadata.json`. -/
def metadataPath (homeDir : String) : String := homeDir ++ "/.gapi/metadata.json"

/-- The corpus metadata sidecar path `~/.gapi/googleapis-metadata.json`. -/
def googleapisMetadataPath (homeDir : String) : String :=
  homeDir ++ "/.gapi/googleapis-metadata.json"

/-- `JSON.stringify(metadata, null, 2)` for the binary metadata record. -/
def metadataJson (m : BinaryMetadata) : String :=
  "\x7b\n  \"version\": \"" ++ m.version ++ "\",\n  \"lastChecked\": "
    ++ toString m.lastChecked ++ ",\n  \"path\": \"" ++ m.path ++ "\"\n\x7d"

/-- `JSON.stringify(metadata, null, 2)` for the corpus metadata record. -/
def googleapisMetadataJson (now : Int) (homeDir : String) : String :=
  "\x7b\n  \"lastChecked\": " ++ toString now
    ++ ",\n  \"commit\": \"master\",\n  \"source\": \"https://github.com/googleapis/googleapis\",\n  \"path\": \""
    ++ homeDir ++ "/.gapi/googleapis\"\n\x7d"

/-- The write plan of `updateMetadata`: one direct `writeFile` to the final
sidecar path. -/
def updateMetadataOps (homeDir version : String) (now : Int) : List FsOp :=
  [.write (metadataPath homeDir)
    (metadataJson ⟨version, now, homeDir ++ "/.gapi/api-linter"⟩)]

/-- The write plan of `updateGoogleapisMetadata`: one direct `writeFile` to
the final sidecar path. -/
def updateGoogleapisMetadataOps (homeDir : String) (now : Int) : List FsOp :=
  [.write (googleapisMetadataPath homeDir) (googleapisMetadataJson now homeDir)]

/-- Modelled from the spec: an atomic-replace write plan for `finalPath`
writes only to paths other than `finalPath` (temporary files) and installs
the content by renaming some path onto `finalPath`, so an interruption
leaves the old or the new file intact. -/
def isAtomicReplacePlan (finalPath : String) (ops : List FsOp) : Bool :=
  ops.all (fun op =>
    match op with
    | .write p _ => p != finalPath
    | .rename _ _ => true)
  && ops.any (fun op =>
    match op with
    | .rename _ dst => dst == finalPath
    | _ => false)

/-- C8 (divergence evidence): both metadata writers perform a single direct
write to the final sidecar path, with no temporary file and no rename, so
neither write plan is an atomic replace in the sense the spec mandates. -/
theorem c8_metadata_write_is_direct_not_atomic (homeDir version : String) (now : Int) :
    updateMetadataOps homeDir version now
      = [.write (metadataPath homeDir)
          (metadataJson ⟨version, now, homeDir ++ "/.gapi/api-linter"⟩)]
    ∧ isAtomicReplacePlan (metadataPath homeDir)
        (updateMetadataOps homeDir version now) = false
    ∧ isAtomicReplacePlan (googleapisMetadataPath homeDir)
        (updateGoogleapisMetadataOps homeDir now) = false := by
  refine ⟨rfl, ?_, ?_⟩ <;>
    simp [isAtomicReplacePlan, updateMetadataOps, updateGoogleapisMetadataOps]

/- ===================== Documentation enrichment cache =====================

`fetchRuleGuidance` (`src/hoverProvider.ts`, lines 151-165) with the
per-instance `guidanceCache` map (line 12, initialised empty).  The network
fetch (`fetchHtml`) and the pure HTML-to-markdown formatter
(`parseRuleHtml`, whose output merely passes through the cache) are
environment functions; `fetchHtml uri = none` models a fetch/parse throw.
The returned triple is (guidance, cache after the call, URIs fetched). -/

/-- Environment of the hover provider: the HTTP layer and the formatter. -/
structure HoverEnv where
  fetchHtml : String → Option String
  parseRuleHtml : String → String

/-- The fallback body returned when fetching fails. -/
def guidancePlaceholder : String := "**Documentation available at the link below.**"

/-- `private guidanceCache: Map<string, string> = new Map()`. -/
def initialGuidanceCache : List (String × String) := []

/-- `Map.get`/`Map.has` on the association-list cache model. -/
def cacheLookup (cache : List (String × String)) (uri : String) : Option String :=
  (cache.find? (fun e => e.1 == uri)).map (·.2)

/-- `fetchRuleGuidance`: answer from the cache when present; otherwise fetch
and format the page, store it, and return it; on a fetch failure return the
placeholder (and cache nothing). -/
def fetchRuleGuidance (env : HoverEnv) (cache : List (String × String))
    (ruleUri : String) : String × List (String × String) × List String :=
  match cacheLookup cache ruleUri with
  | some g => (g, cache, [])
  | none =>
    match env.fetchHtml ruleUri with
    | some html =>
      let guidance := env.parseRuleHtml html
      (guidance, (ruleUri, guidance) :: cache, [ruleUri])
    | none => (guidancePlaceholder, cache, [ruleUri])

/-- C9: for a URI not in the cache whose fetch succeeds, the first call
fetches exactly once and stores the formatted body; the second call in the
same session returns the same body from the unchanged cache with no network
activity; a fresh instance starts with an empty cache. -/
theorem c9_guidance_fetched_once_then_cached (env : HoverEnv)
    (cache : List (String × String)) (uri html : String)
    (hf : env.fetchHtml uri = some html) (hc : cacheLookup cache uri = none) :
    (fetchRuleGuidance env cache uri).1 = env.parseRuleHtml html
    ∧ (fetchRuleGuidance env cache uri).2.2 = [uri]
    ∧ (fetchRuleGuidance env (fetchRuleGuidance env cache uri).2.1 uri).1
        = (fetchRuleGuidance env cache uri).1
    ∧ (fetchRuleGuidance env (fetchRuleGuidance env cache uri).2.1 uri).2.1
        = (fetchRuleGuidance env cache uri).2.1
    ∧ (fetchRuleGuidance env (fetchRuleGuidance env cache uri).2.1 uri).2.2 = []
    ∧ cacheLookup initialGuidanceCache uri = none := by
  have hc2 : cache.find? (fun e => e.1 == uri) = none := by
    cases h : cache.find? (fun e => e.1 == uri) with
    | none => rfl
    | some v =>
      rw [cacheLookup, h] at hc
      simp at hc
  simp [fetchRuleGuidance, cacheLookup, hc2, hf, initialGuidanceCache]

/-- The concrete hover environment of the C9 witness. -/
def c9Env : HoverEnv :=
  { fetchHtml := fun _ => some "<h2>Details</h2><p>doc body</p>"
    parseRuleHtml := fun h => h }

/-- Witness for C9 at a concrete rule documentation URI. -/
theorem c9_guidance_fetched_once_then_cached_witness :
    (fetchRuleGuidance c9Env initialGuidanceCache "https://linter.aip.dev/131").2.2
        = ["https://linter.aip.dev/131"]
    ∧ (fetchRuleGuidance c9Env
        (fetchRuleGuidance c9Env initialGuidanceCache "https://linter.aip.dev/131").2.1
        "https://linter.aip.dev/131").2.2 = [] :=
  ⟨(c9_guidance_fetched_once_then_cached c9Env initialGuidanceCache
      "https://linter.aip.dev/131" "<h2>Details</h2><p>doc body</p>" rfl rfl).2.1,
   (c9_guidance_fetched_once_then_cached c9Env initialGuidanceCache
      "https://linter.aip.dev/131" "<h2>Details</h2><p>doc body</p>" rfl rfl).2.2.2.2.1⟩
